import Mathlib

set_option maxHeartbeats 1000000

/-! Shallow embedding of the task lifecycle manager, the bounded project
cache and the opaque-cursor pagination utilities of the hi-ai MCP server
(`src/lib/taskManager.ts`, `src/types/task.ts` with its pagination helpers,
and the `ProjectCache` module).  JavaScript `Map`s are modelled as
insertion-ordered association lists, ISO-8601 timestamps as integer
milliseconds, JavaScript numbers used for memory estimates and eviction
scores as rationals, and `unknown` payloads as a type parameter `V`. -/

/-- Lookup in an insertion-ordered association list (JavaScript `Map.get`). -/
def lookupAssoc {α : Type} : List (String × α) → String → Option α
  | [], _ => none
  | (k, v) :: rest, key => if k = key then some v else lookupAssoc rest key

/-- Update-or-append (JavaScript `Map.set`): an existing key keeps its
insertion position, a fresh key is appended at the end. -/
def setAssoc {α : Type} : List (String × α) → String → α → List (String × α)
  | [], key, v => [(key, v)]
  | (k, w) :: rest, key, v =>
      if k = key then (key, v) :: rest else (k, w) :: setAssoc rest key v

/-- Remove a key (JavaScript `Map.delete`); keys are unique in every
reachable state, so erasing the first occurrence models deletion. -/
def deleteAssoc {α : Type} : List (String × α) → String → List (String × α)
  | [], _ => []
  | (k, v) :: rest, key =>
      if k = key then rest else (k, v) :: deleteAssoc rest key

/-- Task status values of `src/types/task.ts`. -/
inductive TaskStatus : Type
  | working
  | input_required
  | completed
  | failed
  | cancelled
deriving DecidableEq, Repr

/-- Terminal statuses where no further transitions are allowed
(`TERMINAL_STATUSES` in `src/types/task.ts`). -/
def TERMINAL_STATUSES : List TaskStatus :=
  [TaskStatus.completed, TaskStatus.failed, TaskStatus.cancelled]

/-- Rendering of a status into the string that JavaScript template literals
interpolate. -/
def statusToString : TaskStatus → String
  | TaskStatus.working => "working"
  | TaskStatus.input_required => "input_required"
  | TaskStatus.completed => "completed"
  | TaskStatus.failed => "failed"
  | TaskStatus.cancelled => "cancelled"

/-- Error value stored on a failed task (`StoredTask.error`). -/
structure ErrorObj (V : Type) : Type where
  code : Int
  message : String
  data : Option V
deriving DecidableEq

/-- Default TTL for tasks, 5 minutes (`DEFAULT_TASK_TTL`). -/
def DEFAULT_TASK_TTL : Int := 5 * 60 * 1000

/-- Maximum TTL for tasks, 1 hour (`MAX_TASK_TTL`). -/
def MAX_TASK_TTL : Int := 60 * 60 * 1000

/-- Default poll interval, 5 seconds (`DEFAULT_POLL_INTERVAL`). -/
def DEFAULT_POLL_INTERVAL : Int := 5000

/-- Public task projection (`Task` in `src/types/task.ts`); timestamps are
integer milliseconds. -/
structure PublicTask : Type where
  taskId : String
  status : TaskStatus
  statusMessage : Option String
  createdAt : Int
  lastUpdatedAt : Int
  ttl : Int
  pollInterval : Int
deriving DecidableEq, Repr

/-- Internal task record (`StoredTask` in `src/types/task.ts`). -/
structure StoredTask (V : Type) : Type where
  taskId : String
  status : TaskStatus
  statusMessage : Option String
  createdAt : Int
  lastUpdatedAt : Int
  ttl : Int
  pollInterval : Int
  method : String
  requestParams : V
  result : Option V
  error : Option (ErrorObj V)
  progressToken : Option String
deriving DecidableEq

/-- Outcome of an awaited executor promise: a JavaScript `Error` instance,
an error-shaped object, or any other thrown value (stringified). -/
inductive ExecError (V : Type) : Type
  | jsError (message : String)
  | errObj (code : Option Int) (message : Option String) (data : Option V)
  | other (str : String)
deriving DecidableEq

/-- Resolution or rejection of an executor promise. -/
inductive ExecResult (V : Type) : Type
  | success (value : V)
  | failure (e : ExecError V)
deriving DecidableEq

/-- State of a `TaskManager` instance: the task map and the registered
status-change callbacks. -/
structure TaskManager (V : Type) : Type where
  tasks : List (String × StoredTask V)
  statusCallbacks : List (PublicTask → Except String Unit)

namespace TaskManager

/-- Projection of a stored task to its public form (`toPublicTask`). -/
def toPublicTask {V : Type} (t : StoredTask V) : PublicTask :=
  { taskId := t.taskId
    status := t.status
    statusMessage := t.statusMessage
    createdAt := t.createdAt
    lastUpdatedAt := t.lastUpdatedAt
    ttl := t.ttl
    pollInterval := t.pollInterval }

/-- Expiry check (`isExpired`): `now - createdAt > ttl`. -/
def isExpired {V : Type} (t : StoredTask V) (now : Int) : Bool :=
  now - t.createdAt > t.ttl

/-- Task creation (`createTask`).  The fresh `taskId` (a random UUID in the
source) and the current time are explicit arguments. -/
def createTask {V : Type} (tm : TaskManager V) (taskId : String) (now : Int)
    (method : String) (requestParams : V) (ttlParam : Option Int)
    (progressToken : Option String) : TaskManager V × PublicTask :=
  let requestedTtl := ttlParam.getD DEFAULT_TASK_TTL
  let ttl := min requestedTtl MAX_TASK_TTL
  let storedTask : StoredTask V :=
    { taskId := taskId
      status := TaskStatus.working
      statusMessage := none
      createdAt := now
      lastUpdatedAt := now
      ttl := ttl
      pollInterval := DEFAULT_POLL_INTERVAL
      method := method
      requestParams := requestParams
      result := none
      error := none
      progressToken := progressToken }
  ({ tm with tasks := setAssoc tm.tasks taskId storedTask },
    toPublicTask storedTask)

/-- Successful completion path (`completeTask`): sets `completed`, stores the
result, clears any status message.  Notably it does not re-check whether the
task is already terminal. -/
def completeTask {V : Type} (tm : TaskManager V) (taskId : String)
    (result : V) (now : Int) : TaskManager V :=
  match lookupAssoc tm.tasks taskId with
  | none => tm
  | some t =>
      let updated := { t with status := TaskStatus.completed,
                              result := some result,
                              lastUpdatedAt := now,
                              statusMessage := none }
      { tm with tasks := setAssoc tm.tasks taskId updated }

/-- Error normalization of `failTask`. -/
def normalizeExecError {V : Type} (e : ExecError V) : ErrorObj V :=
  match e with
  | ExecError.jsError msg => { code := -32603, message := msg, data := none }
  | ExecError.errObj code msg data =>
      { code := code.getD (-32603), message := msg.getD "Unknown error", data := data }
  | ExecError.other s => { code := -32603, message := s, data := none }

/-- Failure path (`failTask`): sets `failed`, stores the normalized error as
both `error` and `statusMessage`.  Like `completeTask` it does not re-check
terminality. -/
def failTask {V : Type} (tm : TaskManager V) (taskId : String)
    (e : ExecError V) (now : Int) : TaskManager V :=
  match lookupAssoc tm.tasks taskId with
  | none => tm
  | some t =>
      let err := normalizeExecError e
      let updated := { t with status := TaskStatus.failed,
                              lastUpdatedAt := now,
                              error := some err,
                              statusMessage := some err.message }
      { tm with tasks := setAssoc tm.tasks taskId updated }

/-- Asynchronous execution (`executeTask`): throws `Task not found` when the
id is absent, otherwise routes the awaited outcome to `completeTask` or
`failTask`.  The thrown error is the first component; the second component
is the state after the call. -/
def executeTask {V : Type} (tm : TaskManager V) (taskId : String)
    (outcome : ExecResult V) (now : Int) :
    Except String Unit × TaskManager V :=
  match lookupAssoc tm.tasks taskId with
  | none => (Except.error ("Task not found: " ++ taskId), tm)
  | some _ =>
      match outcome with
      | ExecResult.success v => (Except.ok (), completeTask tm taskId v now)
      | ExecResult.failure e => (Except.ok (), failTask tm taskId e now)

/-- Read with lazy expiry (`getTask`): a present-but-expired record is
deleted and `null` returned. -/
def getTask {V : Type} (tm : TaskManager V) (taskId : String) (now : Int) :
    TaskManager V × Option PublicTask :=
  match lookupAssoc tm.tasks taskId with
  | none => (tm, none)
  | some t =>
      if isExpired t now then
        ({ tm with tasks := deleteAssoc tm.tasks taskId }, none)
      else (tm, some (toPublicTask t))

/-- Shape of the `getTaskResult` response. -/
structure TaskResultResponse (V : Type) : Type where
  result : Option V
  error : Option (ErrorObj V)
  task : Option PublicTask
  isTerminal : Bool
deriving DecidableEq

/-- Result read with lazy expiry (`getTaskResult`). -/
def getTaskResult {V : Type} (tm : TaskManager V) (taskId : String)
    (now : Int) : TaskManager V × Option (TaskResultResponse V) :=
  match lookupAssoc tm.tasks taskId with
  | none => (tm, none)
  | some t =>
      if isExpired t now then
        ({ tm with tasks := deleteAssoc tm.tasks taskId }, none)
      else if t.status = TaskStatus.completed then
        (tm, some { result := t.result, error := none, task := none, isTerminal := true })
      else if t.status = TaskStatus.failed then
        (tm, some { result := none
                    error := some (t.error.getD
                      { code := -32603, message := "Task failed with unknown error", data := none })
                    task := none, isTerminal := true })
      else if t.status = TaskStatus.cancelled then
        (tm, some { result := none
                    error := some { code := -32603, message := "Task was cancelled", data := none }
                    task := none, isTerminal := true })
      else
        (tm, some { result := none, error := none, task := some (toPublicTask t), isTerminal := false })

/-- Message of the error thrown when cancelling a terminal task; the current
status is embedded between single quotes, as the template literal does. -/
def cancelErrorMessage (s : TaskStatus) : String :=
  "Cannot cancel task: already in terminal status " ++
    String.singleton (Char.ofNat 39) ++ statusToString s ++ String.singleton (Char.ofNat 39)

/-- Fixed status message set by `cancelTask`. -/
def cancelStatusMessage : String := "The task was cancelled by request."

/-- Cancellation (`cancelTask`): `null` when absent, a thrown error when the
task is already terminal, otherwise the transition to `cancelled`. -/
def cancelTask {V : Type} (tm : TaskManager V) (taskId : String) (now : Int) :
    Except String (TaskManager V × Option PublicTask) :=
  match lookupAssoc tm.tasks taskId with
  | none => Except.ok (tm, none)
  | some t =>
      if TERMINAL_STATUSES.contains t.status then
        Except.error (cancelErrorMessage t.status)
      else
        let updated := { t with status := TaskStatus.cancelled
                                statusMessage := some cancelStatusMessage
                                lastUpdatedAt := now }
        Except.ok ({ tm with tasks := setAssoc tm.tasks taskId updated },
          some (toPublicTask updated))

/-- Sequential observer loop of `notifyStatusChange`: every callback gets the
public projection; a rejection is caught (logged in the source) so iteration
continues with the next callback. -/
def runCallbacks (publicTask : PublicTask) :
    List (PublicTask → Except String Unit) → List (Except String Unit)
  | [] => []
  | cb :: rest => cb publicTask :: runCallbacks publicTask rest

/-- Notification fan-out (`notifyStatusChange`): invokes every registered
callback on the task's public projection and leaves the store untouched;
the returned list is the trace of callback outcomes. -/
def notifyStatusChange {V : Type} (tm : TaskManager V) (t : StoredTask V) :
    TaskManager V × List (Except String Unit) :=
  (tm, runCallbacks (toPublicTask t) tm.statusCallbacks)

end TaskManager

/-- Default page size for list operations (`DEFAULT_PAGE_SIZE`). -/
def DEFAULT_PAGE_SIZE : Nat := 20

/-- Maximum page size for list operations (`MAX_PAGE_SIZE`). -/
def MAX_PAGE_SIZE : Nat := 100

/-- Payload of a pagination cursor (`CursorData`); `offset` and `limit` are
the numeric fields `decodeCursor` validates. -/
structure CursorData : Type where
  offset : Nat
  limit : Nat
  context : Option String
deriving DecidableEq, Repr

/-- Opaque cursor string.  The base64url/JSON serialization round-trips
faithfully, so a well-formed token is modelled by its decoded payload and
every other string by `malformed`. -/
inductive Cursor : Type
  | encoded (data : CursorData)
  | malformed (raw : String)
deriving DecidableEq, Repr

/-- Serialization of a cursor (`encodeCursor`). -/
def encodeCursor (d : CursorData) : Cursor := Cursor.encoded d

/-- Deserialization with validation (`decodeCursor`): `null` on a malformed
token. -/
def decodeCursor : Cursor → Option CursorData
  | Cursor.encoded d => some d
  | Cursor.malformed _ => none

/-- Result of `paginateItems` (`PaginatedList`). -/
structure PaginatedList (T : Type) : Type where
  items : List T
  total : Nat
  nextCursor : Option Cursor
deriving DecidableEq, Repr

/-- Offset extracted from an optional cursor exactly as `paginateItems`
does: missing or malformed cursors fall back to offset 0. -/
def cursorOffset : Option Cursor → Nat
  | none => 0
  | some c =>
      match decodeCursor c with
      | some cd => cd.offset
      | none => 0

/-- Pagination of an item list (`paginateItems`): clamps `pageSize` to
`MAX_PAGE_SIZE`, slices `[offset, offset+limit)` and returns a `nextCursor`
iff `offset + limit < items.length`. -/
def paginateItems {T : Type} (items : List T) (cursor : Option Cursor)
    (pageSize : Nat) : PaginatedList T :=
  let limit := min pageSize MAX_PAGE_SIZE
  let offset := cursorOffset cursor
  let paginatedItems := (items.drop offset).take limit
  let hasMore := offset + limit < items.length
  { items := paginatedItems,
    total := items.length,
    nextCursor :=
      if hasMore then
        some (encodeCursor { offset := offset + limit, limit := limit, context := none })
      else none }

/-- Client-side exhaustion loop over `paginateItems` (the round-trip law's
driver, as in the repository's pagination test): fetch a page, append its
items, follow `nextCursor` until absent.  `fuel` bounds the recursion; any
`fuel` larger than the number of pages gives the full traversal. -/
def paginateAll {T : Type} (items : List T) (pageSize : Nat) :
    Option Cursor → Nat → List T
  | _, 0 => []
  | cursor, Nat.succ fuel =>
      let r := paginateItems items cursor pageSize
      match r.nextCursor with
      | none => r.items
      | some c => r.items ++ paginateAll items pageSize (some c) fuel

/-- Splitting a character list at `/` separators: the segment view of a
path that `path.normalize` works on (structural, so proofs can evaluate it). -/
def splitSegs : List Char → List Char → List (List Char)
  | [], acc => [acc.reverse]
  | c :: rest, acc =>
      if c = '/' then acc.reverse :: splitSegs rest []
      else splitSegs rest (c :: acc)

/-- Joining segments back with `/` separators. -/
def joinSlash : List (List Char) → List Char
  | [] => []
  | [s] => s
  | s :: rest => s ++ '/' :: joinSlash rest

/-- POSIX `path.normalize`, modelled over `/`-separated segments: collapses
repeated separators, resolves `.` and `..` (`..` above the root of an
absolute path is dropped, leading `..` of a relative path is kept), and
preserves a single trailing separator. -/
def pathNormalize (p : String) : String :=
  if p.data.length = 0 then "." else
  let isAbs := p.data.head? = some '/'
  let trailing := p.data.getLast? = some '/'
  let segs := (splitSegs p.data []).filter (fun s => s ≠ [] ∧ s ≠ ['.'])
  let stack := segs.foldl (fun st seg =>
    if seg = ['.', '.'] then
      if isAbs then st.dropLast
      else
        match st.getLast? with
        | some last => if last = ['.', '.'] then st ++ [seg] else st.dropLast
        | none => st ++ [seg]
    else st ++ [seg]) []
  let body := joinSlash stack
  if body = [] then
    (if isAbs then "/" else if trailing then "./" else ".")
  else
    let withTrail := if trailing then body ++ ['/'] else body
    if isAbs then String.mk ('/' :: withTrail) else String.mk withTrail

/-- Metadata of a cached project (`CachedProject`); the ts-morph `Project`
handle is modelled by an opaque numeric id. -/
structure CachedProject : Type where
  projectId : Nat
  lastAccess : Int
  fileCount : Nat
  estimatedMemoryMB : ℚ
  hitCount : Nat
deriving DecidableEq, Repr

/-- State of the `ProjectCache` singleton. -/
structure ProjectCache : Type where
  cache : List (String × CachedProject)
  totalHits : Nat
  totalMisses : Nat
  lastCleanup : Int
deriving DecidableEq, Repr

namespace ProjectCache

/-- Maximum number of cache entries (`MAX_CACHE_SIZE`). -/
def MAX_CACHE_SIZE : Nat := 5

/-- Cache entry TTL in milliseconds, 5 minutes (`CACHE_TTL`). -/
def CACHE_TTL : Int := 5 * 60 * 1000

/-- Total memory budget in MB (`MAX_TOTAL_MEMORY_MB`). -/
def MAX_TOTAL_MEMORY_MB : ℚ := 200

/-- Per-project memory cap in MB (`MAX_PROJECT_MEMORY_MB`). -/
def MAX_PROJECT_MEMORY_MB : ℚ := 100

/-- Estimated memory per source file in MB (`MEMORY_PER_FILE_MB`). -/
def MEMORY_PER_FILE_MB : ℚ := 0.5

/-- Base memory estimate per project in MB (`BASE_MEMORY_MB`). -/
def BASE_MEMORY_MB : ℚ := 1

/-- Lazy-sweep interval in milliseconds, 1 minute (`CLEANUP_INTERVAL`). -/
def CLEANUP_INTERVAL : Int := 60 * 1000

/-- Cache key computed inside `getOrCreate`: `path.normalize`, then one
trailing separator stripped when the result is longer than one character. -/
def normalizeCacheKey (p : String) : String :=
  let normalizedPath := pathNormalize p
  if normalizedPath.data.getLast? = some '/' ∧ 1 < normalizedPath.data.length then
    String.mk normalizedPath.data.dropLast
  else normalizedPath

/-- Sum of `estimatedMemoryMB` over all entries (`getTotalMemoryUsage`). -/
def totalMemoryUsage (st : ProjectCache) : ℚ :=
  st.cache.foldl (fun total kv => total + kv.2.estimatedMemoryMB) 0

/-- Eviction score of an entry (`evictLRU`'s loop body):
`0.7 × (age / CACHE_TTL) + 0.3 × (1 / (hitCount + 1))`; higher means more
evictable. -/
def score (now : Int) (c : CachedProject) : ℚ :=
  ((now - c.lastAccess : Int) : ℚ) / (CACHE_TTL : ℚ) * 0.7 +
    1 / ((c.hitCount : ℚ) + 1) * 0.3

/-- Victim selection of `evictLRU`: walk the entries in insertion order and
keep the first entry whose score strictly exceeds the best so far (the
source's `score > lowestScore || victimPath === null`). -/
def pickVictim (now : Int) : List (String × CachedProject) →
    Option (String × ℚ) → Option (String × ℚ)
  | [], acc => acc
  | kv :: rest, acc =>
      let s := score now kv.2
      let acc2 := match acc with
        | none => some (kv.1, s)
        | some (vk, vs) => if vs < s then some (kv.1, s) else some (vk, vs)
      pickVictim now rest acc2

/-- Eviction of the worst-scoring entry (`evictLRU`). -/
def evictLRU (st : ProjectCache) (now : Int) : ProjectCache :=
  match pickVictim now st.cache none with
  | none => st
  | some (vk, _) => { st with cache := deleteAssoc st.cache vk }

/-- Removal of TTL-expired entries (`removeExpired`): keeps exactly the
entries with `now - lastAccess < CACHE_TTL`. -/
def removeExpired (st : ProjectCache) (now : Int) : ProjectCache :=
  { st with cache := st.cache.filter (fun kv => now - kv.2.lastAccess < CACHE_TTL) }

/-- Memory-pressure loop of `getOrCreate`: while the projected total exceeds
`MAX_TOTAL_MEMORY_MB` and the cache is nonempty, evict.  Each iteration on a
nonempty cache removes exactly one entry, so fuel equal to the entry count
makes the recursion equivalent to the source's `while`. -/
def evictLoop (now : Int) (estimatedMemoryMB : ℚ) :
    Nat → ProjectCache → ProjectCache
  | 0, st => st
  | Nat.succ fuel, st =>
      if MAX_TOTAL_MEMORY_MB < totalMemoryUsage st + estimatedMemoryMB ∧
          0 < st.cache.length then
        evictLoop now estimatedMemoryMB fuel (evictLRU st now)
      else st

/-- Lazy sweep step of the miss path: if more than `CLEANUP_INTERVAL` has
elapsed since the last sweep, remove expired entries and stamp the sweep. -/
def missSweep (st : ProjectCache) (now : Int) : ProjectCache :=
  if CLEANUP_INTERVAL < now - st.lastCleanup then
    { removeExpired st now with lastCleanup := now }
  else st

/-- Capacity step of the miss path: evict one entry when the cache is at
`MAX_CACHE_SIZE`. -/
def missEvict (st : ProjectCache) (now : Int) : ProjectCache :=
  if MAX_CACHE_SIZE ≤ st.cache.length then evictLRU st now else st

/-- Memory-pressure step of the miss path: when the projected total would
exceed `MAX_TOTAL_MEMORY_MB`, run the eviction loop. -/
def missMemoryEvict (st : ProjectCache) (now : Int) (estimatedMemoryMB : ℚ) :
    ProjectCache :=
  if MAX_TOTAL_MEMORY_MB < totalMemoryUsage st + estimatedMemoryMB then
    evictLoop now estimatedMemoryMB st.cache.length st
  else st

/-- Miss path of `getOrCreate` after the hit check failed: count the miss,
lazily sweep, evict at capacity, estimate the new project's memory, skip
caching oversized projects, evict under memory pressure, insert. -/
def getOrCreateMiss (st : ProjectCache) (normalizedPath : String) (now : Int)
    (fileCount : Nat) (newProjectId : Nat) : ProjectCache × Nat :=
  let st1 := { st with totalMisses := st.totalMisses + 1 }
  let st2 := missSweep st1 now
  let st3 := missEvict st2 now
  let estimatedMemoryMB := BASE_MEMORY_MB + (fileCount : ℚ) * MEMORY_PER_FILE_MB
  if MAX_PROJECT_MEMORY_MB < estimatedMemoryMB then (st3, newProjectId)
  else
    let st4 := missMemoryEvict st3 now estimatedMemoryMB
    let entry : CachedProject :=
      { projectId := newProjectId, lastAccess := now, fileCount := fileCount,
        estimatedMemoryMB := estimatedMemoryMB, hitCount := 0 }
    ({ st4 with cache := setAssoc st4.cache normalizedPath entry }, newProjectId)

/-- Cache lookup-or-build (`getOrCreate`).  The current time, the file count
the project scan would find, and the fresh handle id are explicit arguments;
the returned `Nat` is the handle handed to the caller. -/
def getOrCreate (st : ProjectCache) (projectPath : String) (now : Int)
    (fileCount : Nat) (newProjectId : Nat) : ProjectCache × Nat :=
  let normalizedPath := normalizeCacheKey projectPath
  match lookupAssoc st.cache normalizedPath with
  | some cached =>
      if now - cached.lastAccess < CACHE_TTL then
        let updated := { cached with lastAccess := now,
                                     hitCount := cached.hitCount + 1 }
        ({ st with cache := setAssoc st.cache normalizedPath updated,
                   totalHits := st.totalHits + 1 }, cached.projectId)
      else getOrCreateMiss st normalizedPath now fileCount newProjectId
  | none => getOrCreateMiss st normalizedPath now fileCount newProjectId

/-- Explicit cache busting (`invalidate`): deletes under `path.normalize`
of the argument — without the trailing-separator strip `getOrCreate`
applies. -/
def invalidate (st : ProjectCache) (projectPath : String) : ProjectCache :=
  { st with cache := deleteAssoc st.cache (pathNormalize projectPath) }

/-- Full reset (`clear`). -/
def clear (st : ProjectCache) : ProjectCache := { st with cache := [] }

/-- Per-entry statistics row (`getStats().projects`). -/
structure CacheStatsEntry : Type where
  path : String
  files : Nat
  memoryMB : ℚ
  age : Int
  hits : Nat
deriving DecidableEq, Repr

/-- Aggregate statistics (`CacheStats`). -/
structure CacheStats : Type where
  size : Nat
  totalMemoryMB : ℚ
  hitRate : ℚ
  projects : List CacheStatsEntry
deriving DecidableEq, Repr

/-- Observability snapshot (`getStats`). -/
def getStats (st : ProjectCache) (now : Int) : CacheStats :=
  let totalRequests := st.totalHits + st.totalMisses
  let hitRate : ℚ :=
    if 0 < totalRequests then (st.totalHits : ℚ) / (totalRequests : ℚ) else 0
  { size := st.cache.length,
    totalMemoryMB := totalMemoryUsage st,
    hitRate := (round (hitRate * 100) : ℚ) / 100,
    projects := st.cache.map (fun kv =>
      { path := kv.1, files := kv.2.fileCount, memoryMB := kv.2.estimatedMemoryMB,
        age := (now - kv.2.lastAccess).fdiv 1000, hits := kv.2.hitCount }) }

end ProjectCache

/-- Empty task manager over `Nat` payloads, as after construction. -/
def tmNatEmpty : TaskManager Nat := { tasks := [], statusCallbacks := [] }

/-- A stored task already in the terminal status `completed`. -/
def completedStoredTask : StoredTask Nat :=
  { taskId := "t1", status := TaskStatus.completed, statusMessage := none,
    createdAt := 0, lastUpdatedAt := 0, ttl := 300000, pollInterval := 5000,
    method := "tools/call", requestParams := 0, result := some 1, error := none,
    progressToken := none }

/-- Task manager holding one completed task `t1`. -/
def tmNatCompleted : TaskManager Nat :=
  { tasks := [("t1", completedStoredTask)], statusCallbacks := [] }

/-- Manager state after creating task `t1` at time 0. -/
def tmAfterCreate : TaskManager Nat :=
  (TaskManager.createTask tmNatEmpty "t1" 0 "tools/call" 0 none none).1

/-- Manager state after additionally cancelling `t1` at time 1. -/
def tmAfterCancel : TaskManager Nat :=
  match TaskManager.cancelTask tmAfterCreate "t1" 1 with
  | Except.ok (s, _) => s
  | Except.error _ => tmAfterCreate

/-- Manager state after the still-pending executor of `t1` resolves
successfully at time 2 (the `completeTask` path). -/
def tmAfterLateResolve : TaskManager Nat :=
  (TaskManager.executeTask tmAfterCancel "t1" (ExecResult.success 7) 2).2

/-- Empty project cache, as after construction at time 0. -/
def cacheEmpty : ProjectCache :=
  { cache := [], totalHits := 0, totalMisses := 0, lastCleanup := 0 }

/-- A full cache: five live entries of 40 MB each (78 files apiece), total
exactly `MAX_TOTAL_MEMORY_MB`, with a fresh cleanup stamp. -/
def cacheFive40 : ProjectCache :=
  { cache := [("/a", { projectId := 1, lastAccess := 1000000 - 1, fileCount := 78,
                       estimatedMemoryMB := 40, hitCount := 0 }),
              ("/b", { projectId := 2, lastAccess := 1000000 - 2, fileCount := 78,
                       estimatedMemoryMB := 40, hitCount := 0 }),
              ("/c", { projectId := 3, lastAccess := 1000000 - 3, fileCount := 78,
                       estimatedMemoryMB := 40, hitCount := 0 }),
              ("/d", { projectId := 4, lastAccess := 1000000 - 4, fileCount := 78,
                       estimatedMemoryMB := 40, hitCount := 0 }),
              ("/e", { projectId := 5, lastAccess := 1000000 - 5, fileCount := 78,
                       estimatedMemoryMB := 40, hitCount := 0 })],
    totalHits := 0, totalMisses := 0, lastCleanup := 1000000 }

/-- The full cache after counting the miss of a sixth resource. -/
def stC2M : ProjectCache := { cacheFive40 with totalMisses := 1 }

/-- State after the size-eviction of the worst-scoring entry. -/
def stC2a : ProjectCache :=
  { stC2M with cache := stC2M.cache.take 4 }

/-- State after the additional memory-pressure eviction. -/
def stC2b : ProjectCache :=
  { stC2M with cache := stC2M.cache.take 3 }

/-- Empty cache after counting one miss. -/
def stMissEmpty : ProjectCache := { cacheEmpty with totalMisses := 1 }

theorem lookupAssoc_setAssoc_self {α : Type} (l : List (String × α)) (k : String) (v : α) :
    lookupAssoc (setAssoc l k v) k = some v := by
  induction l with
  | nil => simp [setAssoc, lookupAssoc]
  | cons kv rest ih =>
    obtain ⟨k0, v0⟩ := kv
    by_cases h : k0 = k
    · simp [setAssoc, h, lookupAssoc]
    · simp [setAssoc, h, lookupAssoc, ih]

theorem paginateAll_eq_drop {T : Type} (items : List T) (pageSize : Nat)
    (h1 : 1 ≤ pageSize) (h2 : pageSize ≤ MAX_PAGE_SIZE) :
    ∀ (fuel : Nat) (cursor : Option Cursor),
      items.length - cursorOffset cursor < fuel →
      paginateAll items pageSize cursor fuel = items.drop (cursorOffset cursor) := by
  intro fuel
  induction fuel with
  | zero => intro cursor h; omega
  | succ n ih =>
    intro cursor h
    have hmin : min pageSize MAX_PAGE_SIZE = pageSize := Nat.min_eq_left h2
    by_cases hm : cursorOffset cursor + pageSize < items.length
    · have hstep : paginateAll items pageSize cursor (n + 1)
          = (items.drop (cursorOffset cursor)).take pageSize ++
            paginateAll items pageSize
              (some (Cursor.encoded
                { offset := cursorOffset cursor + pageSize,
                  limit := pageSize, context := none })) n := by
        simp [paginateAll, paginateItems, hmin, hm, encodeCursor]
      have hoff : cursorOffset (some (Cursor.encoded
          { offset := cursorOffset cursor + pageSize,
            limit := pageSize, context := none }))
          = cursorOffset cursor + pageSize := rfl
      rw [hstep, ih _ (by rw [hoff]; omega), hoff,
        List.drop_take_append_drop]
    · have hlast : paginateAll items pageSize cursor (n + 1)
          = (items.drop (cursorOffset cursor)).take pageSize := by
        simp [paginateAll, paginateItems, hmin, hm]
      rw [hlast, List.take_of_length_le]
      simp only [List.length_drop]
      omega

/-- C6: for every item list and every page size from 1 to `MAX_PAGE_SIZE`,
paginating to exhaustion by feeding back each `nextCursor` (any fuel bound
of at least `items.length + 1` pages suffices) concatenates back exactly the
original list, and `paginateItems` returns a `nextCursor` iff
`offset + limit < items.length`. -/
theorem C6_paginate_roundtrip {T : Type} (items : List T) (pageSize : Nat)
    (h1 : 1 ≤ pageSize) (h2 : pageSize ≤ MAX_PAGE_SIZE) :
    paginateAll items pageSize none (items.length + 1) = items ∧
    ∀ cursor : Option Cursor,
      ((paginateItems items cursor pageSize).nextCursor.isSome = true ↔
        cursorOffset cursor + min pageSize MAX_PAGE_SIZE < items.length) := by
  constructor
  · have h := paginateAll_eq_drop items pageSize h1 h2 (items.length + 1) none
      (by simp [cursorOffset])
    simpa [cursorOffset] using h
  · intro cursor
    by_cases hm : cursorOffset cursor + min pageSize MAX_PAGE_SIZE < items.length <;>
      simp [paginateItems, hm]

theorem C6_paginate_roundtrip_witness :
    paginateAll [0, 1, 2] 2 none 4 = [0, 1, 2] :=
  (C6_paginate_roundtrip [0, 1, 2] 2 (by decide) (by decide)).1

theorem terminal_contains_iff (s : TaskStatus) :
    TERMINAL_STATUSES.contains s = true ↔ s ∈ TERMINAL_STATUSES := by
  cases s <;> decide

/-- C3: for every createTask call the returned and stored ttl equal
min(requested ?? 300000, 3600000); in particular requesting 86400000 yields
3600000, and no requested ttl is rejected (the clamp is total). -/
theorem C3_createTask_ttl_clamp {V : Type} (tm : TaskManager V) (taskId : String)
    (now : Int) (method : String) (params : V) (ttlParam : Option Int)
    (pt : Option String) :
    ((TaskManager.createTask tm taskId now method params ttlParam pt).2.ttl
        = min (ttlParam.getD 300000) 3600000) ∧
    ((lookupAssoc (TaskManager.createTask tm taskId now method params ttlParam pt).1.tasks
        taskId).map StoredTask.ttl = some (min (ttlParam.getD 300000) 3600000)) ∧
    ((TaskManager.createTask tm taskId now method params (some 86400000) pt).2.ttl
        = 3600000) := by
  refine ⟨?_, ?_, ?_⟩ <;>
    simp [TaskManager.createTask, TaskManager.toPublicTask, DEFAULT_TASK_TTL,
      MAX_TASK_TTL, lookupAssoc_setAssoc_self]

/-- C4: cancelTask returns null for an absent task, throws an error whose
message embeds the current status for a terminal task, and otherwise writes
status `cancelled`, the fixed status message and `lastUpdatedAt = now` and
returns the public projection of the updated task. -/
theorem C4_cancelTask_spec {V : Type} (tm : TaskManager V) (taskId : String)
    (now : Int) :
    (lookupAssoc tm.tasks taskId = none →
      TaskManager.cancelTask tm taskId now = Except.ok (tm, none)) ∧
    (∀ t : StoredTask V, lookupAssoc tm.tasks taskId = some t →
      t.status ∈ TERMINAL_STATUSES →
      TaskManager.cancelTask tm taskId now
        = Except.error (TaskManager.cancelErrorMessage t.status)) ∧
    (∀ t : StoredTask V, lookupAssoc tm.tasks taskId = some t →
      t.status ∉ TERMINAL_STATUSES →
      TaskManager.cancelTask tm taskId now
        = Except.ok
            ({ tm with tasks := setAssoc tm.tasks taskId ({ t with status := TaskStatus.cancelled, statusMessage := some TaskManager.cancelStatusMessage, lastUpdatedAt := now }) },
              some (TaskManager.toPublicTask ({ t with status := TaskStatus.cancelled, statusMessage := some TaskManager.cancelStatusMessage, lastUpdatedAt := now })))) := by
  refine ⟨?_, ?_, ?_⟩
  · intro h
    simp [TaskManager.cancelTask, h]
  · intro t hl hmem
    simp only [TaskManager.cancelTask, hl]
    rw [if_pos ((terminal_contains_iff t.status).2 hmem)]
  · intro t hl hmem
    have hc : ¬ (TERMINAL_STATUSES.contains t.status = true) :=
      fun h => hmem ((terminal_contains_iff t.status).1 h)
    simp only [TaskManager.cancelTask, hl]
    rw [if_neg hc]

theorem C4_cancelTask_spec_witness :
    TaskManager.cancelTask tmNatCompleted "t1" 5
      = Except.error (TaskManager.cancelErrorMessage TaskStatus.completed) :=
  (C4_cancelTask_spec tmNatCompleted "t1" 5).2.1 completedStoredTask (by rfl) (by decide)

/-- C7: executeTask on an absent task id rejects with a message containing
"Task not found", returns the state unchanged, and never invokes the
executor: the call's value is independent of the executor outcome. -/
theorem C7_executeTask_not_found {V : Type} (tm : TaskManager V) (taskId : String)
    (outcome : ExecResult V) (now : Int)
    (h : lookupAssoc tm.tasks taskId = none) :
    ((TaskManager.executeTask tm taskId outcome now).1
        = Except.error ("Task not found: " ++ taskId)) ∧
    ((TaskManager.executeTask tm taskId outcome now).2 = tm) ∧
    (∀ (outcome2 : ExecResult V) (now2 : Int),
      TaskManager.executeTask tm taskId outcome2 now2
        = TaskManager.executeTask tm taskId outcome now) := by
  refine ⟨?_, ?_, ?_⟩ <;> simp [TaskManager.executeTask, h]

theorem C7_executeTask_not_found_witness :
    (TaskManager.executeTask tmNatEmpty "t" (ExecResult.success 0) 0).1
      = Except.error ("Task not found: " ++ "t") :=
  (C7_executeTask_not_found tmNatEmpty "t" (ExecResult.success 0) 0 rfl).1

theorem runCallbacks_length (pt : PublicTask)
    (cbs : List (PublicTask → Except String Unit)) :
    (TaskManager.runCallbacks pt cbs).length = cbs.length := by
  induction cbs with
  | nil => simp [TaskManager.runCallbacks]
  | cons cb rest ih => simp [TaskManager.runCallbacks, ih]

theorem runCallbacks_getElem (pt : PublicTask)
    (cbs : List (PublicTask → Except String Unit)) :
    ∀ i : Nat, (TaskManager.runCallbacks pt cbs)[i]?
      = (cbs[i]?).map (fun cb => cb pt) := by
  induction cbs with
  | nil => intro i; simp [TaskManager.runCallbacks]
  | cons cb rest ih =>
    intro i
    cases i with
    | zero => simp [TaskManager.runCallbacks]
    | succ j => simp [TaskManager.runCallbacks, ih j]

/-- C9: a status-change notification leaves the manager state untouched and
invokes every registered callback exactly once, in registration order, each
on the task's public projection; the trace equations hold whatever each
callback returns, so an erroring callback neither stops later callbacks nor
changes any task. -/
theorem C9_notify_fanout {V : Type} (tm : TaskManager V) (t : StoredTask V) :
    ((TaskManager.notifyStatusChange tm t).1 = tm) ∧
    ((TaskManager.notifyStatusChange tm t).2.length = tm.statusCallbacks.length) ∧
    (∀ i : Nat, (TaskManager.notifyStatusChange tm t).2[i]?
      = (tm.statusCallbacks[i]?).map
          (fun cb => cb (TaskManager.toPublicTask t))) :=
  ⟨rfl, runCallbacks_length _ _, runCallbacks_getElem _ _⟩

/-- C1: evaluation of the late-resolution scenario.  Task `t1` is cancelled
(terminal) at time 1, yet when its still-pending executor resolves at time 2
the `completeTask` path accepts the write and the status becomes
`completed` — the code lets a non-TTL operation change a terminal status,
contradicting the terminal-state invariant. -/
theorem C1_terminal_overwrite :
    ((lookupAssoc tmAfterCancel.tasks "t1").map StoredTask.status
        = some TaskStatus.cancelled) ∧
    ((TaskManager.executeTask tmAfterCancel "t1" (ExecResult.success 7) 2).1
        = Except.ok ()) ∧
    ((lookupAssoc tmAfterLateResolve.tasks "t1").map StoredTask.status
        = some TaskStatus.completed) :=
  ⟨rfl, rfl, rfl⟩

/-- C10: the TTL clamp has no lower bound: a negative requested ttl is
stored unchanged on a `working` task, and any later getTask or getTaskResult
at a time at or after creation sees `now - createdAt > ttl`, deletes the
record and returns null. -/
theorem C10_negative_ttl {V : Type} (tm : TaskManager V) (taskId : String)
    (now0 : Int) (method : String) (params : V) (ttlReq : Int)
    (pt : Option String) (hneg : ttlReq < 0) :
    (((TaskManager.createTask tm taskId now0 method params (some ttlReq) pt).2.status
        = TaskStatus.working) ∧
     ((TaskManager.createTask tm taskId now0 method params (some ttlReq) pt).2.ttl
        = ttlReq) ∧
     ((lookupAssoc (TaskManager.createTask tm taskId now0 method params
          (some ttlReq) pt).1.tasks taskId).map StoredTask.ttl = some ttlReq)) ∧
    (∀ (tm2 : TaskManager V) (t : StoredTask V) (now : Int),
      lookupAssoc tm2.tasks taskId = some t → t.ttl < 0 → t.createdAt ≤ now →
      (TaskManager.isExpired t now = true ∧
       TaskManager.getTask tm2 taskId now
         = ({ tm2 with tasks := deleteAssoc tm2.tasks taskId }, none) ∧
       TaskManager.getTaskResult tm2 taskId now
         = ({ tm2 with tasks := deleteAssoc tm2.tasks taskId }, none))) := by
  have hmin : min ttlReq MAX_TASK_TTL = ttlReq := by
    have : ttlReq ≤ MAX_TASK_TTL := by
      simp only [MAX_TASK_TTL]
      omega
    exact min_eq_left this
  constructor
  · refine ⟨rfl, ?_, ?_⟩
    · simp [TaskManager.createTask, TaskManager.toPublicTask, hmin]
    · simp [TaskManager.createTask, lookupAssoc_setAssoc_self, hmin]
  · intro tm2 t now hl httl hle
    have hexp : TaskManager.isExpired t now = true := by
      simp only [TaskManager.isExpired, decide_eq_true_eq]
      omega
    refine ⟨hexp, ?_, ?_⟩
    · simp [TaskManager.getTask, hl, hexp]
    · simp [TaskManager.getTaskResult, hl, hexp]

theorem C10_negative_ttl_witness :
    (TaskManager.getTask
      (TaskManager.createTask tmNatEmpty "t1" 0 "m" 0 (some (-5)) none).1
      "t1" 0).2 = none := by
  have h := (C10_negative_ttl tmNatEmpty "t1" 0 "m" (0 : Nat) (-5) none
    (by decide)).2
    (TaskManager.createTask tmNatEmpty "t1" 0 "m" 0 (some (-5)) none).1
    { taskId := "t1", status := TaskStatus.working, statusMessage := none,
      createdAt := 0, lastUpdatedAt := 0, ttl := -5, pollInterval := 5000,
      method := "m", requestParams := 0, result := none, error := none,
      progressToken := none }
    0 (by rfl) (by decide) (by decide)
  rw [h.2.1]

theorem deleteAssoc_sublist {α : Type} (l : List (String × α)) (k : String) :
    List.Sublist (deleteAssoc l k) l := by
  induction l with
  | nil => simp [deleteAssoc]
  | cons kv rest ih =>
    obtain ⟨k0, v0⟩ := kv
    by_cases h : k0 = k
    · simp only [deleteAssoc, if_pos h]
      exact (List.Sublist.refl rest).cons _
    · simp only [deleteAssoc, if_neg h]
      exact ih.cons₂ _

theorem lookupAssoc_eq_none_iff {α : Type} (l : List (String × α)) (k : String) :
    lookupAssoc l k = none ↔ k ∉ l.map Prod.fst := by
  induction l with
  | nil => simp [lookupAssoc]
  | cons kv rest ih =>
    obtain ⟨k0, v0⟩ := kv
    by_cases h : k0 = k
    · simp [lookupAssoc, h]
    · simp only [lookupAssoc, if_neg h, List.map_cons, List.mem_cons, ih]
      constructor
      · rintro hn (h1 | h2)
        · exact h h1.symm
        · exact hn h2
      · intro hn h2
        exact hn (Or.inr h2)

theorem lookupAssoc_mem {α : Type} {l : List (String × α)} {k : String} {v : α}
    (h : lookupAssoc l k = some v) : (k, v) ∈ l := by
  induction l with
  | nil => simp [lookupAssoc] at h
  | cons kv rest ih =>
    obtain ⟨k0, v0⟩ := kv
    by_cases hk : k0 = k
    · simp only [lookupAssoc, if_pos hk, Option.some.injEq] at h
      subst hk
      subst h
      exact List.mem_cons_self _ _
    · simp only [lookupAssoc, if_neg hk] at h
      exact List.mem_cons_of_mem _ (ih h)

theorem length_setAssoc_of_lookup {α : Type} (l : List (String × α))
    (k : String) (v c : α) (h : lookupAssoc l k = some c) :
    (setAssoc l k v).length = l.length := by
  induction l with
  | nil => simp [lookupAssoc] at h
  | cons kv rest ih =>
    obtain ⟨k0, v0⟩ := kv
    by_cases hk : k0 = k
    · simp [setAssoc, hk]
    · simp only [lookupAssoc, if_neg hk] at h
      simp [setAssoc, hk, ih h]

theorem length_setAssoc_le {α : Type} (l : List (String × α)) (k : String) (v : α) :
    (setAssoc l k v).length ≤ l.length + 1 := by
  induction l with
  | nil => simp [setAssoc]
  | cons kv rest ih =>
    obtain ⟨k0, v0⟩ := kv
    by_cases hk : k0 = k
    · simp [setAssoc, hk]
    · simp only [setAssoc, if_neg hk, List.length_cons]
      omega

theorem mem_setAssoc {α : Type} (l : List (String × α)) (k : String) (v : α) :
    ∀ kv ∈ setAssoc l k v, kv ∈ l ∨ kv = (k, v) := by
  induction l with
  | nil => simp [setAssoc]
  | cons kv0 rest ih =>
    obtain ⟨k0, v0⟩ := kv0
    by_cases hk : k0 = k
    · intro kv hkv
      simp only [setAssoc, if_pos hk, List.mem_cons] at hkv
      rcases hkv with h1 | h2
      · exact Or.inr h1
      · exact Or.inl (List.mem_cons_of_mem _ h2)
    · intro kv hkv
      simp only [setAssoc, if_neg hk, List.mem_cons] at hkv
      rcases hkv with h1 | h2
      · exact Or.inl (by simp [h1])
      · rcases ih kv h2 with h3 | h3
        · exact Or.inl (List.mem_cons_of_mem _ h3)
        · exact Or.inr h3

theorem keys_setAssoc_of_not_mem {α : Type} (l : List (String × α))
    (k : String) (v : α) (h : k ∉ l.map Prod.fst) :
    (setAssoc l k v).map Prod.fst = l.map Prod.fst ++ [k] := by
  induction l with
  | nil => simp [setAssoc]
  | cons kv0 rest ih =>
    obtain ⟨k0, v0⟩ := kv0
    simp only [List.map_cons, List.mem_cons] at h
    push_neg at h
    have hk : k0 ≠ k := fun hh => h.1 hh.symm
    simp [setAssoc, hk, ih h.2]

theorem keys_setAssoc_of_mem {α : Type} (l : List (String × α))
    (k : String) (v : α) (h : k ∈ l.map Prod.fst) :
    (setAssoc l k v).map Prod.fst = l.map Prod.fst := by
  induction l with
  | nil => simp at h
  | cons kv0 rest ih =>
    obtain ⟨k0, v0⟩ := kv0
    by_cases hk : k0 = k
    · simp [setAssoc, hk]
    · simp only [List.map_cons, List.mem_cons] at h
      rcases h with h1 | h2
      · exact absurd h1.symm hk
      · simp [setAssoc, hk, ih h2]

theorem nodup_keys_setAssoc {α : Type} (l : List (String × α)) (k : String)
    (v : α) (h : (l.map Prod.fst).Nodup) :
    ((setAssoc l k v).map Prod.fst).Nodup := by
  by_cases hm : k ∈ l.map Prod.fst
  · rw [keys_setAssoc_of_mem l k v hm]
    exact h
  · rw [keys_setAssoc_of_not_mem l k v hm]
    simp [List.nodup_append, h, hm]

theorem lookupAssoc_deleteAssoc_self {α : Type} (l : List (String × α))
    (k : String) (h : (l.map Prod.fst).Nodup) :
    lookupAssoc (deleteAssoc l k) k = none := by
  induction l with
  | nil => simp [deleteAssoc, lookupAssoc]
  | cons kv0 rest ih =>
    obtain ⟨k0, v0⟩ := kv0
    simp only [List.map_cons, List.nodup_cons] at h
    by_cases hk : k0 = k
    · simp only [deleteAssoc, if_pos hk]
      exact (lookupAssoc_eq_none_iff rest k).2 (hk ▸ h.1)
    · simp only [deleteAssoc, if_neg hk, lookupAssoc, if_neg hk]
      exact ih h.2

theorem length_deleteAssoc_of_mem {α : Type} (l : List (String × α))
    (k : String) (h : k ∈ l.map Prod.fst) :
    (deleteAssoc l k).length + 1 = l.length := by
  induction l with
  | nil => simp at h
  | cons kv0 rest ih =>
    obtain ⟨k0, v0⟩ := kv0
    by_cases hk : k0 = k
    · simp [deleteAssoc, hk]
    · simp only [List.map_cons, List.mem_cons] at h
      rcases h with h1 | h2
      · exact absurd h1.symm hk
      · simp only [deleteAssoc, if_neg hk, List.length_cons]
        rw [← ih h2]

theorem foldl_add_est (l : List (String × CachedProject)) :
    ∀ a : ℚ, l.foldl (fun total kv => total + kv.2.estimatedMemoryMB) a
      = a + (l.map (fun kv => kv.2.estimatedMemoryMB)).sum := by
  induction l with
  | nil => intro a; simp
  | cons kv rest ih =>
    intro a
    simp only [List.foldl_cons, List.map_cons, List.sum_cons, ih]
    ring

theorem totalMemoryUsage_eq (st : ProjectCache) :
    ProjectCache.totalMemoryUsage st
      = (st.cache.map (fun kv => kv.2.estimatedMemoryMB)).sum := by
  simpa [ProjectCache.totalMemoryUsage] using foldl_add_est st.cache 0

theorem sum_est_sublist_le {l1 l2 : List (String × CachedProject)}
    (h : List.Sublist l1 l2) (hpos : ∀ kv ∈ l2, 0 ≤ kv.2.estimatedMemoryMB) :
    (l1.map (fun kv => kv.2.estimatedMemoryMB)).sum
      ≤ (l2.map (fun kv => kv.2.estimatedMemoryMB)).sum := by
  refine List.Sublist.sum_le_sum (h.map _) ?_
  intro a ha
  obtain ⟨kv, hkv, rfl⟩ := List.mem_map.1 ha
  exact hpos kv hkv

theorem sum_est_setAssoc_le (l : List (String × CachedProject)) (k : String)
    (v : CachedProject) (hpos : ∀ kv ∈ l, 0 ≤ kv.2.estimatedMemoryMB) :
    ((setAssoc l k v).map (fun kv => kv.2.estimatedMemoryMB)).sum
      ≤ (l.map (fun kv => kv.2.estimatedMemoryMB)).sum + v.estimatedMemoryMB := by
  induction l with
  | nil => simp [setAssoc]
  | cons kv0 rest ih =>
    obtain ⟨k0, v0⟩ := kv0
    have h0 : (0 : ℚ) ≤ v0.estimatedMemoryMB := hpos (k0, v0) (List.mem_cons_self _ _)
    have hrest : ∀ kv ∈ rest, 0 ≤ kv.2.estimatedMemoryMB :=
      fun kv hkv => hpos kv (List.mem_cons_of_mem _ hkv)
    by_cases hk : k0 = k
    · simp only [setAssoc, if_pos hk, List.map_cons, List.sum_cons]
      linarith
    · simp only [setAssoc, if_neg hk, List.map_cons, List.sum_cons]
      have := ih hrest
      linarith

theorem sum_est_setAssoc_eq (l : List (String × CachedProject)) (k : String)
    (v c : CachedProject) (hl : lookupAssoc l k = some c)
    (hest : v.estimatedMemoryMB = c.estimatedMemoryMB) :
    ((setAssoc l k v).map (fun kv => kv.2.estimatedMemoryMB)).sum
      = (l.map (fun kv => kv.2.estimatedMemoryMB)).sum := by
  induction l with
  | nil => simp [lookupAssoc] at hl
  | cons kv0 rest ih =>
    obtain ⟨k0, v0⟩ := kv0
    by_cases hk : k0 = k
    · simp only [lookupAssoc, if_pos hk, Option.some.injEq] at hl
      simp only [setAssoc, if_pos hk, List.map_cons, List.sum_cons, hest, hl]
    · simp only [lookupAssoc, if_neg hk] at hl
      simp only [setAssoc, if_neg hk, List.map_cons, List.sum_cons, ih hl]

theorem pickVictim_acc_isSome (now : Int) :
    ∀ (l : List (String × CachedProject)) (p : String × ℚ),
      (ProjectCache.pickVictim now l (some p)).isSome = true := by
  intro l
  induction l with
  | nil => intro p; simp [ProjectCache.pickVictim]
  | cons kv rest ih =>
    intro p
    obtain ⟨vk, vs⟩ := p
    by_cases h : vs < ProjectCache.score now kv.2
    · simpa [ProjectCache.pickVictim, h] using ih _
    · simpa [ProjectCache.pickVictim, h] using ih _

theorem pickVictim_spec (now : Int) :
    ∀ (l : List (String × CachedProject)) (vk : String) (vs : ℚ)
      (rk : String) (rs : ℚ),
      ProjectCache.pickVictim now l (some (vk, vs)) = some (rk, rs) →
      ((rk = vk ∧ rs = vs) ∨
        ∃ c, (rk, c) ∈ l ∧ rs = ProjectCache.score now c) ∧
      vs ≤ rs ∧ (∀ kv ∈ l, ProjectCache.score now kv.2 ≤ rs) := by
  intro l
  induction l with
  | nil =>
    intro vk vs rk rs h
    simp only [ProjectCache.pickVictim, Option.some.injEq, Prod.mk.injEq] at h
    refine ⟨Or.inl ⟨h.1.symm, h.2.symm⟩, le_of_eq h.2, by simp⟩
  | cons kv rest ih =>
    intro vk vs rk rs h
    by_cases hlt : vs < ProjectCache.score now kv.2
    · have h2 : ProjectCache.pickVictim now rest
          (some (kv.1, ProjectCache.score now kv.2)) = some (rk, rs) := by
        simpa [ProjectCache.pickVictim, hlt] using h
      obtain ⟨hmem, hge, hall⟩ := ih kv.1 (ProjectCache.score now kv.2) rk rs h2
      refine ⟨?_, le_trans (le_of_lt hlt) hge, ?_⟩
      · rcases hmem with ⟨h1, hsc⟩ | ⟨c, hc, hsc⟩
        · refine Or.inr ⟨kv.2, ?_, hsc⟩
          rw [h1]
          exact List.mem_cons_self _ _
        · exact Or.inr ⟨c, List.mem_cons_of_mem _ hc, hsc⟩
      · intro kv2 hkv2
        rcases List.mem_cons.1 hkv2 with h1 | h1
        · rw [h1]
          exact hge
        · exact hall kv2 h1
    · have h2 : ProjectCache.pickVictim now rest (some (vk, vs))
          = some (rk, rs) := by
        simpa [ProjectCache.pickVictim, hlt] using h
      obtain ⟨hmem, hge, hall⟩ := ih vk vs rk rs h2
      refine ⟨?_, hge, ?_⟩
      · rcases hmem with h1 | ⟨c, hc, hsc⟩
        · exact Or.inl h1
        · exact Or.inr ⟨c, List.mem_cons_of_mem _ hc, hsc⟩
      · intro kv2 hkv2
        rcases List.mem_cons.1 hkv2 with h1 | h1
        · rw [h1]
          exact le_trans (not_lt.1 hlt) hge
        · exact hall kv2 h1

theorem evictLRU_spec (st : ProjectCache) (now : Int) (hne : st.cache ≠ []) :
    ∃ vk c, (vk, c) ∈ st.cache ∧
      (∀ kv ∈ st.cache, ProjectCache.score now kv.2 ≤ ProjectCache.score now c) ∧
      (ProjectCache.evictLRU st now).cache = deleteAssoc st.cache vk ∧
      (ProjectCache.evictLRU st now).cache.length + 1 = st.cache.length := by
  obtain ⟨kv0, rest, hc⟩ : ∃ kv0 rest, st.cache = kv0 :: rest := by
    cases hl : st.cache with
    | nil => exact absurd hl hne
    | cons a b => exact ⟨a, b, rfl⟩
  have hstep : ProjectCache.pickVictim now st.cache none
      = ProjectCache.pickVictim now rest
          (some (kv0.1, ProjectCache.score now kv0.2)) := by
    rw [hc]
    simp [ProjectCache.pickVictim]
  have hsome := pickVictim_acc_isSome now rest (kv0.1, ProjectCache.score now kv0.2)
  obtain ⟨res, hres⟩ := Option.isSome_iff_exists.1 hsome
  obtain ⟨rk, rs⟩ := res
  obtain ⟨hmem, hge, hall⟩ := pickVictim_spec now rest kv0.1
    (ProjectCache.score now kv0.2) rk rs hres
  have hpv : ProjectCache.pickVictim now st.cache none = some (rk, rs) :=
    hstep.trans hres
  obtain ⟨c, hcmem, hcs⟩ :
      ∃ c, (rk, c) ∈ st.cache ∧ rs = ProjectCache.score now c := by
    rcases hmem with ⟨h1, hsc⟩ | ⟨c, hcm, hsc⟩
    · refine ⟨kv0.2, ?_, hsc⟩
      rw [hc, h1]
      exact List.mem_cons_self _ _
    · exact ⟨c, by rw [hc]; exact List.mem_cons_of_mem _ hcm, hsc⟩
  refine ⟨rk, c, hcmem, ?_, ?_, ?_⟩
  · intro kv hkv
    rw [hc] at hkv
    rcases List.mem_cons.1 hkv with h1 | h1
    · rw [h1, ← hcs]
      exact hge
    · rw [← hcs]
      exact hall kv h1
  · simp [ProjectCache.evictLRU, hpv]
  · have hcache : (ProjectCache.evictLRU st now).cache = deleteAssoc st.cache rk := by
      simp [ProjectCache.evictLRU, hpv]
    rw [hcache]
    exact length_deleteAssoc_of_mem st.cache rk
      (List.mem_map_of_mem Prod.fst hcmem)

theorem evictLRU_cache_sublist (st : ProjectCache) (now : Int) :
    List.Sublist (ProjectCache.evictLRU st now).cache st.cache := by
  cases hpv : ProjectCache.pickVictim now st.cache none with
  | none => simp [ProjectCache.evictLRU, hpv]
  | some res =>
    obtain ⟨rk, rs⟩ := res
    simp only [ProjectCache.evictLRU, hpv]
    exact deleteAssoc_sublist _ _

theorem evictLoop_cache_sublist (now : Int) (est : ℚ) :
    ∀ (fuel : Nat) (st : ProjectCache),
      List.Sublist (ProjectCache.evictLoop now est fuel st).cache st.cache := by
  intro fuel
  induction fuel with
  | zero => intro st; simp [ProjectCache.evictLoop]
  | succ n ih =>
    intro st
    by_cases h : ProjectCache.MAX_TOTAL_MEMORY_MB
        < ProjectCache.totalMemoryUsage st + est ∧ 0 < st.cache.length
    · simp only [ProjectCache.evictLoop, if_pos h]
      exact (ih (ProjectCache.evictLRU st now)).trans (evictLRU_cache_sublist st now)
    · simp only [ProjectCache.evictLoop, if_neg h]
      exact List.Sublist.refl _

theorem evictLoop_post (now : Int) (est : ℚ) :
    ∀ (fuel : Nat) (st : ProjectCache), st.cache.length ≤ fuel →
      ProjectCache.totalMemoryUsage (ProjectCache.evictLoop now est fuel st) + est
          ≤ ProjectCache.MAX_TOTAL_MEMORY_MB ∨
        (ProjectCache.evictLoop now est fuel st).cache = [] := by
  intro fuel
  induction fuel with
  | zero =>
    intro st hlen
    right
    simpa [ProjectCache.evictLoop] using List.length_eq_zero.1 (Nat.le_zero.1 hlen)
  | succ n ih =>
    intro st hlen
    by_cases h : ProjectCache.MAX_TOTAL_MEMORY_MB
        < ProjectCache.totalMemoryUsage st + est ∧ 0 < st.cache.length
    · rw [ProjectCache.evictLoop, if_pos h]
      apply ih
      have hne : st.cache ≠ [] := by
        intro hnil
        rw [hnil] at h
        simp at h
      obtain ⟨vk, c, _, _, _, hl1⟩ := evictLRU_spec st now hne
      omega
    · rw [ProjectCache.evictLoop, if_neg h]
      by_cases hA : ProjectCache.MAX_TOTAL_MEMORY_MB
          < ProjectCache.totalMemoryUsage st + est
      · right
        have : ¬ 0 < st.cache.length := fun hB => h ⟨hA, hB⟩
        exact List.length_eq_zero.1 (by omega)
      · exact Or.inl (not_lt.1 hA)

theorem removeExpired_sublist (st : ProjectCache) (now : Int) :
    List.Sublist (ProjectCache.removeExpired st now).cache st.cache :=
  List.filter_sublist st.cache

theorem missSweep_sublist (st : ProjectCache) (now : Int) :
    List.Sublist (ProjectCache.missSweep st now).cache st.cache := by
  by_cases h : ProjectCache.CLEANUP_INTERVAL < now - st.lastCleanup
  · simp only [ProjectCache.missSweep, if_pos h]
    exact removeExpired_sublist st now
  · simp only [ProjectCache.missSweep, if_neg h]
    exact List.Sublist.refl _

theorem missEvict_sublist (st : ProjectCache) (now : Int) :
    List.Sublist (ProjectCache.missEvict st now).cache st.cache := by
  by_cases h : ProjectCache.MAX_CACHE_SIZE ≤ st.cache.length
  · simp only [ProjectCache.missEvict, if_pos h]
    exact evictLRU_cache_sublist st now
  · simp only [ProjectCache.missEvict, if_neg h]
    exact List.Sublist.refl _

theorem missEvict_length (st : ProjectCache) (now : Int)
    (h : st.cache.length ≤ ProjectCache.MAX_CACHE_SIZE) :
    (ProjectCache.missEvict st now).cache.length + 1
      ≤ ProjectCache.MAX_CACHE_SIZE := by
  by_cases hc : ProjectCache.MAX_CACHE_SIZE ≤ st.cache.length
  · simp only [ProjectCache.missEvict, if_pos hc]
    have hne : st.cache ≠ [] := by
      intro hnil
      rw [hnil] at hc
      simp [ProjectCache.MAX_CACHE_SIZE] at hc
    obtain ⟨vk, c, _, _, _, hl1⟩ := evictLRU_spec st now hne
    omega
  · simp only [ProjectCache.missEvict, if_neg hc]
    omega

theorem missMemoryEvict_sublist (st : ProjectCache) (now : Int) (est : ℚ) :
    List.Sublist (ProjectCache.missMemoryEvict st now est).cache st.cache := by
  by_cases h : ProjectCache.MAX_TOTAL_MEMORY_MB
      < ProjectCache.totalMemoryUsage st + est
  · simp only [ProjectCache.missMemoryEvict, if_pos h]
    exact evictLoop_cache_sublist now est st.cache.length st
  · simp only [ProjectCache.missMemoryEvict, if_neg h]
    exact List.Sublist.refl _

theorem missMemoryEvict_post (st : ProjectCache) (now : Int) (est : ℚ) :
    ProjectCache.totalMemoryUsage (ProjectCache.missMemoryEvict st now est) + est
        ≤ ProjectCache.MAX_TOTAL_MEMORY_MB ∨
      (ProjectCache.missMemoryEvict st now est).cache = [] := by
  by_cases h : ProjectCache.MAX_TOTAL_MEMORY_MB
      < ProjectCache.totalMemoryUsage st + est
  · simp only [ProjectCache.missMemoryEvict, if_pos h]
    exact evictLoop_post now est st.cache.length st le_rfl
  · simp only [ProjectCache.missMemoryEvict, if_neg h]
    exact Or.inl (not_lt.1 h)

theorem total_le_of_sublist (st' st : ProjectCache)
    (h : List.Sublist st'.cache st.cache)
    (hpos : ∀ kv ∈ st.cache, 0 ≤ kv.2.estimatedMemoryMB) :
    ProjectCache.totalMemoryUsage st' ≤ ProjectCache.totalMemoryUsage st := by
  rw [totalMemoryUsage_eq, totalMemoryUsage_eq]
  exact sum_est_sublist_le h hpos

theorem getOrCreateMiss_invariant (st : ProjectCache) (key : String) (now : Int)
    (fc pid : Nat)
    (hsize : st.cache.length ≤ ProjectCache.MAX_CACHE_SIZE)
    (hmem : ProjectCache.totalMemoryUsage st ≤ ProjectCache.MAX_TOTAL_MEMORY_MB)
    (hpos : ∀ kv ∈ st.cache, 0 ≤ kv.2.estimatedMemoryMB) :
    (ProjectCache.getOrCreateMiss st key now fc pid).1.cache.length
        ≤ ProjectCache.MAX_CACHE_SIZE ∧
      ProjectCache.totalMemoryUsage (ProjectCache.getOrCreateMiss st key now fc pid).1
        ≤ ProjectCache.MAX_TOTAL_MEMORY_MB ∧
      ∀ kv ∈ (ProjectCache.getOrCreateMiss st key now fc pid).1.cache,
        0 ≤ kv.2.estimatedMemoryMB := by
  have hc1 : ({ st with totalMisses := st.totalMisses + 1 } : ProjectCache).cache
      = st.cache := rfl
  set st1 : ProjectCache := { st with totalMisses := st.totalMisses + 1 } with hst1
  set st2 : ProjectCache := ProjectCache.missSweep st1 now with hst2
  set st3 : ProjectCache := ProjectCache.missEvict st2 now with hst3
  have h2sub : List.Sublist st2.cache st.cache := by
    rw [hst2, ← hc1]
    exact missSweep_sublist st1 now
  have h3sub : List.Sublist st3.cache st.cache :=
    (missEvict_sublist st2 now).trans h2sub
  have h3pos : ∀ kv ∈ st3.cache, 0 ≤ kv.2.estimatedMemoryMB :=
    fun kv hkv => hpos kv (h3sub.subset hkv)
  have h3len : st3.cache.length + 1 ≤ ProjectCache.MAX_CACHE_SIZE :=
    missEvict_length st2 now (le_trans h2sub.length_le hsize)
  set est : ℚ := ProjectCache.BASE_MEMORY_MB
      + (fc : ℚ) * ProjectCache.MEMORY_PER_FILE_MB with hest
  have hestpos : 0 ≤ est := by
    rw [hest]
    simp only [ProjectCache.BASE_MEMORY_MB, ProjectCache.MEMORY_PER_FILE_MB]
    have hfc : (0 : ℚ) ≤ (fc : ℚ) := Nat.cast_nonneg fc
    nlinarith
  by_cases hover : ProjectCache.MAX_PROJECT_MEMORY_MB < est
  · have hgc : (ProjectCache.getOrCreateMiss st key now fc pid).1 = st3 := by
      simp only [ProjectCache.getOrCreateMiss, ← hst1, ← hst2, ← hst3, ← hest,
        if_pos hover]
    rw [hgc]
    refine ⟨by omega, le_trans (total_le_of_sublist st3 st h3sub hpos) hmem, h3pos⟩
  · have hestle : est ≤ ProjectCache.MAX_PROJECT_MEMORY_MB := not_lt.1 hover
    set entry : CachedProject := { projectId := pid, lastAccess := now, fileCount := fc, estimatedMemoryMB := est, hitCount := 0 } with hentry
    set st4 : ProjectCache := ProjectCache.missMemoryEvict st3 now est with hst4
    have h4sub : List.Sublist st4.cache st3.cache := missMemoryEvict_sublist st3 now est
    have h4pos : ∀ kv ∈ st4.cache, 0 ≤ kv.2.estimatedMemoryMB :=
      fun kv hkv => h3pos kv (h4sub.subset hkv)
    have h4len : st4.cache.length + 1 ≤ ProjectCache.MAX_CACHE_SIZE := by
      have := h4sub.length_le
      omega
    have h4mem : ProjectCache.totalMemoryUsage st4 + est
        ≤ ProjectCache.MAX_TOTAL_MEMORY_MB := by
      rcases missMemoryEvict_post st3 now est with h | h
      · rw [← hst4] at h
        exact h
      · rw [← hst4] at h
        rw [totalMemoryUsage_eq, h]
        simp only [List.map_nil, List.sum_nil, zero_add]
        have : ProjectCache.MAX_PROJECT_MEMORY_MB
            ≤ ProjectCache.MAX_TOTAL_MEMORY_MB := by
          simp only [ProjectCache.MAX_PROJECT_MEMORY_MB,
            ProjectCache.MAX_TOTAL_MEMORY_MB]
          norm_num
        linarith
    have hgc : (ProjectCache.getOrCreateMiss st key now fc pid).1
        = { st4 with cache := setAssoc st4.cache key entry } := by
      simp only [ProjectCache.getOrCreateMiss, ← hst1, ← hst2, ← hst3, ← hest,
        if_neg hover, ← hentry, ← hst4]
    rw [hgc]
    refine ⟨?_, ?_, ?_⟩
    · have := length_setAssoc_le st4.cache key entry
      simp only [ProjectCache.MAX_CACHE_SIZE] at h4len ⊢
      omega
    · rw [totalMemoryUsage_eq]
      have hle := sum_est_setAssoc_le st4.cache key entry h4pos
      have hentry2 : entry.estimatedMemoryMB = est := by rw [hentry]
      rw [totalMemoryUsage_eq] at h4mem
      rw [hentry2] at hle
      exact le_trans hle (by simpa using h4mem)
    · intro kv hkv
      rcases mem_setAssoc st4.cache key entry kv hkv with h | h
      · exact h4pos kv h
      · rw [h]
        have hentry2 : entry.estimatedMemoryMB = est := by rw [hentry]
        simpa [hentry2] using hestpos

theorem getOrCreateMiss_run (st : ProjectCache) (key : String) (now : Int)
    (fc pid : Nat) (stM s2 s3 s4 : ProjectCache) (est : ℚ)
    (hM : stM = { st with totalMisses := st.totalMisses + 1 })
    (h2 : ProjectCache.missSweep stM now = s2)
    (h3 : ProjectCache.missEvict s2 now = s3)
    (hest : est = ProjectCache.BASE_MEMORY_MB + (fc : ℚ) * ProjectCache.MEMORY_PER_FILE_MB)
    (hover : ¬ ProjectCache.MAX_PROJECT_MEMORY_MB < est)
    (h4 : ProjectCache.missMemoryEvict s3 now est = s4) :
    ProjectCache.getOrCreateMiss st key now fc pid
      = ({ s4 with cache := setAssoc s4.cache key { projectId := pid, lastAccess := now, fileCount := fc, estimatedMemoryMB := est, hitCount := 0 } }, pid) := by
  subst hM
  subst h2
  subst h3
  subst hest
  subst h4
  simp only [ProjectCache.getOrCreateMiss, if_neg hover]

/-- C2 (amended): starting from any state satisfying the cache invariants
(at most 5 entries, total estimated memory at most 200 MB, nonnegative
per-entry estimates), every `getOrCreate` call preserves them; and on any
nonempty cache the eviction step removes exactly one entry, one whose score
`0.7 × (age / CACHE_TTL) + 0.3 × (1 / (hitCount + 1))` is maximal.  Inserting
a 6th resource into a full cache can additionally trigger further
memory-pressure evictions, so "exactly one entry" does not hold for the call
as a whole (see the counterexample). -/
theorem C2_cache_invariants (st : ProjectCache) (p : String) (now : Int)
    (fc pid : Nat)
    (hsize : st.cache.length ≤ ProjectCache.MAX_CACHE_SIZE)
    (hmem : ProjectCache.totalMemoryUsage st ≤ ProjectCache.MAX_TOTAL_MEMORY_MB)
    (hpos : ∀ kv ∈ st.cache, 0 ≤ kv.2.estimatedMemoryMB) :
    ((ProjectCache.getOrCreate st p now fc pid).1.cache.length
          ≤ ProjectCache.MAX_CACHE_SIZE ∧
      ProjectCache.totalMemoryUsage (ProjectCache.getOrCreate st p now fc pid).1
          ≤ ProjectCache.MAX_TOTAL_MEMORY_MB ∧
      ∀ kv ∈ (ProjectCache.getOrCreate st p now fc pid).1.cache,
        0 ≤ kv.2.estimatedMemoryMB) ∧
    (∀ st2 : ProjectCache, st2.cache ≠ [] →
      ∃ vk c, (vk, c) ∈ st2.cache ∧
        (∀ kv ∈ st2.cache,
          ProjectCache.score now kv.2 ≤ ProjectCache.score now c) ∧
        (ProjectCache.evictLRU st2 now).cache = deleteAssoc st2.cache vk ∧
        (ProjectCache.evictLRU st2 now).cache.length + 1 = st2.cache.length) := by
  refine ⟨?_, fun st2 hne => evictLRU_spec st2 now hne⟩
  cases hl : lookupAssoc st.cache (ProjectCache.normalizeCacheKey p) with
  | none =>
    have hgc : ProjectCache.getOrCreate st p now fc pid
        = ProjectCache.getOrCreateMiss st (ProjectCache.normalizeCacheKey p)
            now fc pid := by
      simp only [ProjectCache.getOrCreate, hl]
    rw [hgc]
    exact getOrCreateMiss_invariant st _ now fc pid hsize hmem hpos
  | some cached =>
    by_cases hfresh : now - cached.lastAccess < ProjectCache.CACHE_TTL
    · have hgc : (ProjectCache.getOrCreate st p now fc pid).1
          = { st with cache := setAssoc st.cache (ProjectCache.normalizeCacheKey p) ({ cached with lastAccess := now, hitCount := cached.hitCount + 1 }), totalHits := st.totalHits + 1 } := by
        simp only [ProjectCache.getOrCreate, hl, if_pos hfresh]
      rw [hgc]
      refine ⟨?_, ?_, ?_⟩
      · show (setAssoc st.cache (ProjectCache.normalizeCacheKey p) _).length
            ≤ ProjectCache.MAX_CACHE_SIZE
        rw [length_setAssoc_of_lookup st.cache _ _ cached hl]
        exact hsize
      · rw [totalMemoryUsage_eq]
        show ((setAssoc st.cache (ProjectCache.normalizeCacheKey p) _).map _).sum
            ≤ ProjectCache.MAX_TOTAL_MEMORY_MB
        rw [sum_est_setAssoc_eq st.cache (ProjectCache.normalizeCacheKey p) ({ cached with lastAccess := now, hitCount := cached.hitCount + 1 }) cached hl rfl, ← totalMemoryUsage_eq]
        exact hmem
      · intro kv hkv
        rcases mem_setAssoc st.cache (ProjectCache.normalizeCacheKey p)
            ({ cached with lastAccess := now, hitCount := cached.hitCount + 1 })
            kv hkv with h | h
        · exact hpos kv h
        · rw [h]
          have h0 := hpos (ProjectCache.normalizeCacheKey p, cached) (lookupAssoc_mem hl)
          exact h0
    · have hgc : ProjectCache.getOrCreate st p now fc pid
          = ProjectCache.getOrCreateMiss st (ProjectCache.normalizeCacheKey p)
              now fc pid := by
        simp only [ProjectCache.getOrCreate, hl, if_neg hfresh]
      rw [hgc]
      exact getOrCreateMiss_invariant st _ now fc pid hsize hmem hpos

theorem C2_cache_invariants_witness :
    (ProjectCache.getOrCreate cacheEmpty "/a" 0 0 1).1.cache.length
      ≤ ProjectCache.MAX_CACHE_SIZE :=
  (C2_cache_invariants cacheEmpty "/a" 0 0 1 (by decide) (by decide)
    (by intro kv hkv; simp [cacheEmpty] at hkv)).1.1

/-- C2 counterexample: with five live 40 MB entries (total exactly 200 MB),
`getOrCreate` of a sixth 45 MB resource evicts one entry for size and then a
second one for memory pressure, leaving four entries — not the five that
"evicts exactly one entry" would imply. -/
theorem C2_counterexample :
    ((ProjectCache.getOrCreate cacheFive40 "/f" 1000000 88 9).1.cache.map
        Prod.fst) = ["/a", "/b", "/c", "/f"] ∧
    (ProjectCache.getOrCreate cacheFive40 "/f" 1000000 88 9).1.cache.length
        = 4 := by
  have hrun := getOrCreateMiss_run cacheFive40 "/f" 1000000 88 9
    stC2M stC2M stC2a stC2b ((45 : ℚ))
    (by decide)
    (by rw [ProjectCache.missSweep, if_neg (by decide)])
    (by rw [ProjectCache.missEvict, if_pos (by decide), ProjectCache.evictLRU]
        rw [show ProjectCache.pickVictim 1000000 stC2M.cache none
            = some ("/e", ProjectCache.score 1000000 { projectId := 5, lastAccess := 1000000 - 5, fileCount := 78, estimatedMemoryMB := 40, hitCount := 0 }) from by
          norm_num [ProjectCache.pickVictim, ProjectCache.score, stC2M, ProjectCache.CACHE_TTL]]
        decide)
    (by norm_num [ProjectCache.BASE_MEMORY_MB, ProjectCache.MEMORY_PER_FILE_MB])
    (by norm_num [ProjectCache.MAX_PROJECT_MEMORY_MB])
    (by rw [ProjectCache.missMemoryEvict, if_pos (by norm_num [ProjectCache.totalMemoryUsage, stC2a, stC2M, cacheFive40, ProjectCache.MAX_TOTAL_MEMORY_MB])]
        rw [show stC2a.cache.length = 4 from by decide]
        rw [ProjectCache.evictLoop, if_pos (by refine ⟨by norm_num [ProjectCache.totalMemoryUsage, stC2a, stC2M, cacheFive40, ProjectCache.MAX_TOTAL_MEMORY_MB], by decide⟩)]
        rw [show ProjectCache.evictLRU stC2a 1000000 = stC2b from by
          rw [ProjectCache.evictLRU]
          rw [show ProjectCache.pickVictim 1000000 stC2a.cache none
              = some ("/d", ProjectCache.score 1000000 { projectId := 4, lastAccess := 1000000 - 4, fileCount := 78, estimatedMemoryMB := 40, hitCount := 0 }) from by
            norm_num [ProjectCache.pickVictim, ProjectCache.score, stC2a, ProjectCache.CACHE_TTL]]
          decide]
        rw [ProjectCache.evictLoop, if_neg (by norm_num [ProjectCache.totalMemoryUsage, stC2b, stC2M, cacheFive40, ProjectCache.MAX_TOTAL_MEMORY_MB])])
  rw [show ProjectCache.getOrCreate cacheFive40 "/f" 1000000 88 9
      = ProjectCache.getOrCreateMiss cacheFive40 "/f" 1000000 88 9 from by
    simp only [ProjectCache.getOrCreate,
      show ProjectCache.normalizeCacheKey "/f" = "/f" from by decide,
      show lookupAssoc cacheFive40.cache "/f" = none from by decide]]
  rw [hrun]
  refine ⟨by decide, by decide⟩

theorem getOrCreateMiss_run_oversized (st : ProjectCache) (key : String)
    (now : Int) (fc pid : Nat) (stM s2 s3 : ProjectCache)
    (hM : stM = { st with totalMisses := st.totalMisses + 1 })
    (h2 : ProjectCache.missSweep stM now = s2)
    (h3 : ProjectCache.missEvict s2 now = s3)
    (hover : ProjectCache.MAX_PROJECT_MEMORY_MB
      < ProjectCache.BASE_MEMORY_MB + (fc : ℚ) * ProjectCache.MEMORY_PER_FILE_MB) :
    ProjectCache.getOrCreateMiss st key now fc pid = (s3, pid) := by
  subst hM
  subst h2
  subst h3
  simp only [ProjectCache.getOrCreateMiss, if_pos hover]

/-- C8 (amended): when the normalized key is not cached and the estimated
memory `BASE_MEMORY_MB + fileCount × MEMORY_PER_FILE_MB` exceeds
`MAX_PROJECT_MEMORY_MB`, the freshly built handle is returned to the caller,
no entry is inserted (the resulting cache is a sublist of the old one), and
the key never appears in `getStats().projects`; however, an entry may still
be evicted on the oversized call's behalf when the cache is at capacity
(see the counterexample). -/
theorem C8_oversized_not_cached (st : ProjectCache) (p : String) (now : Int)
    (fc pid : Nat)
    (hkey : ProjectCache.normalizeCacheKey p ∉ st.cache.map Prod.fst)
    (hover : ProjectCache.MAX_PROJECT_MEMORY_MB
      < ProjectCache.BASE_MEMORY_MB + (fc : ℚ) * ProjectCache.MEMORY_PER_FILE_MB) :
    ((ProjectCache.getOrCreate st p now fc pid).2 = pid) ∧
    (List.Sublist (ProjectCache.getOrCreate st p now fc pid).1.cache st.cache) ∧
    (∀ now2 : Int,
      ∀ e ∈ (ProjectCache.getStats (ProjectCache.getOrCreate st p now fc pid).1
          now2).projects,
        e.path ≠ ProjectCache.normalizeCacheKey p) := by
  have hlook : lookupAssoc st.cache (ProjectCache.normalizeCacheKey p) = none :=
    (lookupAssoc_eq_none_iff st.cache (ProjectCache.normalizeCacheKey p)).2 hkey
  have hgc : ProjectCache.getOrCreate st p now fc pid
      = ProjectCache.getOrCreateMiss st (ProjectCache.normalizeCacheKey p)
          now fc pid := by
    simp only [ProjectCache.getOrCreate, hlook]
  have hrun := getOrCreateMiss_run_oversized st (ProjectCache.normalizeCacheKey p)
    now fc pid
    { st with totalMisses := st.totalMisses + 1 }
    (ProjectCache.missSweep { st with totalMisses := st.totalMisses + 1 } now)
    (ProjectCache.missEvict
      (ProjectCache.missSweep { st with totalMisses := st.totalMisses + 1 } now) now)
    rfl rfl rfl hover
  rw [hgc, hrun]
  have hsub : List.Sublist
      (ProjectCache.missEvict
        (ProjectCache.missSweep { st with totalMisses := st.totalMisses + 1 } now)
        now).cache st.cache := by
    have hs1 : ({ st with totalMisses := st.totalMisses + 1 } : ProjectCache).cache
        = st.cache := rfl
    refine (missEvict_sublist _ now).trans ?_
    rw [← hs1]
    exact missSweep_sublist _ now
  refine ⟨rfl, hsub, ?_⟩
  intro now2 e he hcontra
  simp only [ProjectCache.getStats, List.mem_map, Prod.exists] at he
  obtain ⟨a, b, hab, hEq⟩ := he
  apply hkey
  have hpath : e.path = a := by rw [← hEq]
  rw [hcontra] at hpath
  rw [hpath]
  exact List.mem_map_of_mem Prod.fst (hsub.subset hab)

theorem C8_oversized_not_cached_witness :
    (ProjectCache.getOrCreate cacheEmpty "/x" 0 199 7).2 = 7 :=
  (C8_oversized_not_cached cacheEmpty "/x" 0 199 7
    (by simp [cacheEmpty])
    (by norm_num [ProjectCache.MAX_PROJECT_MEMORY_MB,
      ProjectCache.BASE_MEMORY_MB, ProjectCache.MEMORY_PER_FILE_MB])).1

/-- C8 counterexample: the oversized resource `/x` (199 files, estimated
100.5 MB) requested against a full five-entry cache still causes one
eviction — the size-based eviction runs before the memory estimate is
computed — leaving four entries although the claim says no existing entry is
evicted on its behalf. -/
theorem C8_counterexample :
    ((ProjectCache.getOrCreate cacheFive40 "/x" 1000000 199 7).1.cache.map
        Prod.fst) = ["/a", "/b", "/c", "/d"] ∧
    (ProjectCache.getOrCreate cacheFive40 "/x" 1000000 199 7).1.cache.length
        = 4 := by
  have hrun := getOrCreateMiss_run_oversized cacheFive40 "/x" 1000000 199 7
    stC2M stC2M stC2a
    (by decide)
    (by rw [ProjectCache.missSweep, if_neg (by decide)])
    (by rw [ProjectCache.missEvict, if_pos (by decide), ProjectCache.evictLRU]
        rw [show ProjectCache.pickVictim 1000000 stC2M.cache none
            = some ("/e", ProjectCache.score 1000000 { projectId := 5, lastAccess := 1000000 - 5, fileCount := 78, estimatedMemoryMB := 40, hitCount := 0 }) from by
          norm_num [ProjectCache.pickVictim, ProjectCache.score, stC2M, cacheFive40, ProjectCache.CACHE_TTL]]
        decide)
    (by norm_num [ProjectCache.MAX_PROJECT_MEMORY_MB,
      ProjectCache.BASE_MEMORY_MB, ProjectCache.MEMORY_PER_FILE_MB])
  rw [show ProjectCache.getOrCreate cacheFive40 "/x" 1000000 199 7
      = ProjectCache.getOrCreateMiss cacheFive40 "/x" 1000000 199 7 from by
    simp only [ProjectCache.getOrCreate,
      show ProjectCache.normalizeCacheKey "/x" = "/x" from by decide,
      show lookupAssoc cacheFive40.cache "/x" = none from by decide]]
  rw [hrun]
  refine ⟨by decide, by decide⟩

theorem nodup_keys_getOrCreateMiss (st : ProjectCache) (key : String)
    (now : Int) (fc pid : Nat) (hnd : (st.cache.map Prod.fst).Nodup) :
    (((ProjectCache.getOrCreateMiss st key now fc pid).1.cache).map
      Prod.fst).Nodup := by
  have hc1 : ({ st with totalMisses := st.totalMisses + 1 } : ProjectCache).cache
      = st.cache := rfl
  set st1 : ProjectCache := { st with totalMisses := st.totalMisses + 1 } with hst1
  set st2 : ProjectCache := ProjectCache.missSweep st1 now with hst2
  set st3 : ProjectCache := ProjectCache.missEvict st2 now with hst3
  have h3sub : List.Sublist st3.cache st.cache := by
    refine (missEvict_sublist st2 now).trans ?_
    rw [hst2, ← hc1]
    exact missSweep_sublist st1 now
  have hnd3 : (st3.cache.map Prod.fst).Nodup :=
    hnd.sublist (h3sub.map Prod.fst)
  set est : ℚ := ProjectCache.BASE_MEMORY_MB
      + (fc : ℚ) * ProjectCache.MEMORY_PER_FILE_MB with hest
  by_cases hover : ProjectCache.MAX_PROJECT_MEMORY_MB < est
  · have hgc : (ProjectCache.getOrCreateMiss st key now fc pid).1 = st3 := by
      simp only [ProjectCache.getOrCreateMiss, ← hst1, ← hst2, ← hst3, ← hest,
        if_pos hover]
    rw [hgc]
    exact hnd3
  · set entry : CachedProject := { projectId := pid, lastAccess := now, fileCount := fc, estimatedMemoryMB := est, hitCount := 0 } with hentry
    set st4 : ProjectCache := ProjectCache.missMemoryEvict st3 now est with hst4
    have h4sub : List.Sublist st4.cache st3.cache :=
      missMemoryEvict_sublist st3 now est
    have hnd4 : (st4.cache.map Prod.fst).Nodup :=
      hnd3.sublist (h4sub.map Prod.fst)
    have hgc : (ProjectCache.getOrCreateMiss st key now fc pid).1
        = { st4 with cache := setAssoc st4.cache key entry } := by
      simp only [ProjectCache.getOrCreateMiss, ← hst1, ← hst2, ← hst3, ← hest,
        if_neg hover, ← hentry, ← hst4]
    rw [hgc]
    exact nodup_keys_setAssoc st4.cache key entry hnd4

theorem nodup_keys_getOrCreate (st : ProjectCache) (p : String) (now : Int)
    (fc pid : Nat) (hnd : (st.cache.map Prod.fst).Nodup) :
    (((ProjectCache.getOrCreate st p now fc pid).1.cache).map Prod.fst).Nodup := by
  cases hl : lookupAssoc st.cache (ProjectCache.normalizeCacheKey p) with
  | none =>
    have hgc : ProjectCache.getOrCreate st p now fc pid
        = ProjectCache.getOrCreateMiss st (ProjectCache.normalizeCacheKey p)
            now fc pid := by
      simp only [ProjectCache.getOrCreate, hl]
    rw [hgc]
    exact nodup_keys_getOrCreateMiss st _ now fc pid hnd
  | some cached =>
    by_cases hfresh : now - cached.lastAccess < ProjectCache.CACHE_TTL
    · have hgc : (ProjectCache.getOrCreate st p now fc pid).1
          = { st with cache := setAssoc st.cache (ProjectCache.normalizeCacheKey p) ({ cached with lastAccess := now, hitCount := cached.hitCount + 1 }), totalHits := st.totalHits + 1 } := by
        simp only [ProjectCache.getOrCreate, hl, if_pos hfresh]
      rw [hgc]
      exact nodup_keys_setAssoc st.cache _ _ hnd
    · have hgc : ProjectCache.getOrCreate st p now fc pid
          = ProjectCache.getOrCreateMiss st (ProjectCache.normalizeCacheKey p)
              now fc pid := by
        simp only [ProjectCache.getOrCreate, hl, if_neg hfresh]
      rw [hgc]
      exact nodup_keys_getOrCreateMiss st _ now fc pid hnd

/-- C5 (amended): provided the normalized path does not end in a trailing
separator, `getOrCreate` and `invalidate` compute the same key, so an
`invalidate p` immediately after `getOrCreate p` removes the entry that call
cached (no entry under that key survives).  When the normalized path does
end in a separator the two keys differ — `getOrCreate` strips it, while
`invalidate` does not — and the entry survives (see the counterexample). -/
theorem C5_invalidate_removes (st : ProjectCache) (p : String) (now : Int)
    (fc pid : Nat)
    (hnd : (st.cache.map Prod.fst).Nodup)
    (htrail : ¬((pathNormalize p).data.getLast? = some '/'
      ∧ 1 < (pathNormalize p).data.length)) :
    (ProjectCache.normalizeCacheKey p = pathNormalize p) ∧
    lookupAssoc ((ProjectCache.invalidate
        (ProjectCache.getOrCreate st p now fc pid).1 p).cache)
      (ProjectCache.normalizeCacheKey p) = none := by
  have hkeyeq : ProjectCache.normalizeCacheKey p = pathNormalize p := by
    simp only [ProjectCache.normalizeCacheKey, if_neg htrail]
  refine ⟨hkeyeq, ?_⟩
  have hnd1 := nodup_keys_getOrCreate st p now fc pid hnd
  have hdel := lookupAssoc_deleteAssoc_self
    (ProjectCache.getOrCreate st p now fc pid).1.cache (pathNormalize p) hnd1
  rw [hkeyeq]
  exact hdel

theorem C5_invalidate_removes_witness :
    lookupAssoc ((ProjectCache.invalidate
        (ProjectCache.getOrCreate cacheEmpty "/a" 0 0 1).1 "/a").cache)
      (ProjectCache.normalizeCacheKey "/a") = none :=
  (C5_invalidate_removes cacheEmpty "/a" 0 0 1 (by decide) (by decide)).2

/-- C5 counterexample: for the trailing-slash path `/a/`, `getOrCreate`
stores the entry under the stripped key `/a`, but `invalidate "/a/"` deletes
under the unstripped key `/a/`, so the freshly inserted entry survives the
supposedly matching invalidation. -/
theorem C5_counterexample :
    (lookupAssoc (ProjectCache.getOrCreate cacheEmpty "/a/" 0 0 1).1.cache
        "/a").isSome = true ∧
    (lookupAssoc (ProjectCache.invalidate
        (ProjectCache.getOrCreate cacheEmpty "/a/" 0 0 1).1 "/a/").cache
        "/a").isSome = true := by
  have hrun := getOrCreateMiss_run cacheEmpty "/a" 0 0 1
    stMissEmpty stMissEmpty stMissEmpty stMissEmpty 1
    (by decide)
    (by rw [ProjectCache.missSweep, if_neg (by decide)])
    (by rw [ProjectCache.missEvict, if_neg (by decide)])
    (by norm_num [ProjectCache.BASE_MEMORY_MB, ProjectCache.MEMORY_PER_FILE_MB])
    (by norm_num [ProjectCache.MAX_PROJECT_MEMORY_MB])
    (by rw [ProjectCache.missMemoryEvict, if_neg (by norm_num
      [ProjectCache.totalMemoryUsage, stMissEmpty, cacheEmpty,
        ProjectCache.MAX_TOTAL_MEMORY_MB])])
  have hgc : ProjectCache.getOrCreate cacheEmpty "/a/" 0 0 1
      = ProjectCache.getOrCreateMiss cacheEmpty "/a" 0 0 1 := by
    simp only [ProjectCache.getOrCreate,
      show ProjectCache.normalizeCacheKey "/a/" = "/a" from by decide,
      show lookupAssoc cacheEmpty.cache "/a" = none from rfl]
  rw [hgc, hrun]
  exact ⟨by decide, by decide⟩
